import Mathlib

/-!
Verification of the pgjq job-queue contract.

The repository consists of a thin asyncpg client (`src/python-client/client.py`
and `src/python-client/src/pgjq_client/client.py`) delegating every queue
operation to SQL functions in the `pgjq` schema; the SQL file `pgjq.sql`
installed by `src/postgres/install.py` is not part of the provided sources.
The engine semantics below are therefore modelled from the specification's
description of the engine contract, while the client-level behaviour
(connection guard, call shapes, defaults) is embedded directly from the
Python sources.

Time is modelled as a natural number of abstract ticks; a `stale_after`
duration is a natural number of the same ticks.  Job payloads and headers are
opaque strings (the client serialises the payload with `json.dumps` and never
inspects it).
-/

namespace pgjq

/-- Modelled from the spec: the job status enumeration
{pending, active, completed, failed, cancelled, stale} of the missing
`pgjq.job_status` SQL type (mirrored by `JobStatus` in both Python clients). -/
inductive JobStatus where
  | pending
  | active
  | completed
  | failed
  | cancelled
  | stale
deriving DecidableEq, Repr

/-- Modelled from the spec: the job record stored by the missing `pgjq` SQL
schema, with the fields the Python `Job` dataclass reads back
(`job_id`, `read_ct`, `enqueued_at`, `dequeued_at`, `staled_at`,
`completed_at`, `cancelled_at`, `failed_at`, payload `job`, `headers`,
`status`, `stale_after`, `priority`). -/
structure Job where
  job_id : Nat
  read_ct : Nat
  enqueued_at : Nat
  dequeued_at : Option Nat
  staled_at : Option Nat
  completed_at : Option Nat
  cancelled_at : Option Nat
  failed_at : Option Nat
  job : String
  headers : Option String
  status : JobStatus
  stale_after : Nat
  priority : Int
deriving DecidableEq, Repr

/-- Modelled from the spec: a job is eligible for a claim when its status is
pending, or active with an expired visibility window
(`dequeued_at + stale_after <= now`). -/
def eligible (now : Nat) (j : Job) : Bool :=
  j.status = JobStatus.pending ||
    (j.status = JobStatus.active &&
      match j.dequeued_at with
      | some d => decide (d + j.stale_after ≤ now)
      | none => false)

/-- Modelled from the spec: the claim order of the missing `pgjq.dequeue` —
`priority` descending, then `enqueued_at` ascending, then `job_id` ascending.
`claimBefore a b` holds when `a` is served strictly before `b`. -/
def claimBefore (a b : Job) : Bool :=
  if b.priority < a.priority then true
  else if a.priority < b.priority then false
  else if a.enqueued_at < b.enqueued_at then true
  else if b.enqueued_at < a.enqueued_at then false
  else a.job_id < b.job_id

/-- Modelled from the spec: the selection step of the missing `pgjq.dequeue`,
scanning the queue for the first eligible job in claim order. -/
def bestEligible (now : Nat) : List Job → Option Job
  | [] => none
  | j :: rest =>
      match bestEligible now rest with
      | none => bif eligible now j then some j else none
      | some b => bif eligible now j && claimBefore j b then some j else some b

/-- Modelled from the spec: the transition applied by the missing
`pgjq.dequeue` to the selected job: `status := active`,
`dequeued_at := now`, `read_ct += 1`, every other field kept. -/
def claimJob (now : Nat) (j : Job) : Job :=
  { j with status := JobStatus.active, dequeued_at := some now,
           read_ct := j.read_ct + 1 }

/-- Modelled from the spec: the in-place update of the claimed row — only the
row whose `job_id` matches the selected candidate is rewritten by
`claimJob`. -/
def applyClaim (now bid : Nat) (q : List Job) : List Job :=
  q.map (fun j => if j.job_id = bid then claimJob now j else j)

/-- Modelled from the spec: the missing `pgjq.dequeue` SQL function —
atomically select the best eligible job, transition it to active, and return
the updated record, or return nothing (never an error) when no job is
eligible. -/
def dequeue (now : Nat) (q : List Job) : Option Job × List Job :=
  match bestEligible now q with
  | none => (none, q)
  | some b => (some (claimJob now b), applyClaim now b.job_id q)

theorem claimBefore_iff {a b : Job} : claimBefore a b = true ↔
    (b.priority < a.priority ∨
      (a.priority = b.priority ∧
        (a.enqueued_at < b.enqueued_at ∨
          (a.enqueued_at = b.enqueued_at ∧ a.job_id < b.job_id)))) := by
  simp only [claimBefore]
  split_ifs <;> simp <;> omega

theorem claimBefore_irrefl (a : Job) : claimBefore a a = false := by
  simp [claimBefore]

theorem claimBefore_trans {a b c : Job} (hab : claimBefore a b = true)
    (hbc : claimBefore b c = true) : claimBefore a c = true := by
  rw [claimBefore_iff] at *
  omega

theorem claimBefore_total {a b : Job} (h : a.job_id ≠ b.job_id) :
    claimBefore a b = true ∨ claimBefore b a = true := by
  rw [claimBefore_iff, claimBefore_iff]
  omega

theorem bestEligible_mem {now : Nat} {q : List Job} {b : Job}
    (h : bestEligible now q = some b) : b ∈ q := by
  induction q with
  | nil => simp [bestEligible] at h
  | cons j rest ih =>
      cases hrest : bestEligible now rest with
      | none =>
          simp only [bestEligible, hrest] at h
          cases he : eligible now j <;> simp [he] at h
          subst h; exact List.mem_cons_self j rest
      | some b0 =>
          simp only [bestEligible, hrest] at h
          cases hc : (eligible now j && claimBefore j b0) <;> simp [hc] at h
          · subst h; exact List.mem_cons_of_mem _ (ih hrest)
          · subst h; exact List.mem_cons_self j rest

theorem bestEligible_eligible {now : Nat} {q : List Job} {b : Job}
    (h : bestEligible now q = some b) : eligible now b = true := by
  induction q with
  | nil => simp [bestEligible] at h
  | cons j rest ih =>
      cases hrest : bestEligible now rest with
      | none =>
          simp only [bestEligible, hrest] at h
          cases he : eligible now j <;> simp [he] at h
          subst h; exact he
      | some b0 =>
          simp only [bestEligible, hrest] at h
          cases hc : (eligible now j && claimBefore j b0) <;> simp [hc] at h
          · subst h; exact ih hrest
          · subst h
            rw [Bool.and_eq_true] at hc
            exact hc.1

theorem bestEligible_none {now : Nat} {q : List Job}
    (h : bestEligible now q = none) :
    ∀ j ∈ q, eligible now j = false := by
  induction q with
  | nil => simp
  | cons j rest ih =>
      cases hrest : bestEligible now rest with
      | none =>
          simp only [bestEligible, hrest] at h
          cases he : eligible now j <;> simp [he] at h
          intro k hk
          rcases List.mem_cons.mp hk with hk | hk
          · subst hk; exact he
          · exact ih hrest k hk
      | some b0 =>
          simp only [bestEligible, hrest] at h
          cases hc : (eligible now j && claimBefore j b0) <;> simp [hc] at h

theorem bestEligible_min {now : Nat} {q : List Job} {b : Job}
    (h : bestEligible now q = some b) :
    ∀ j ∈ q, eligible now j = true → claimBefore j b = false := by
  induction q generalizing b with
  | nil => simp [bestEligible] at h
  | cons j rest ih =>
      intro k hk hke
      cases hrest : bestEligible now rest with
      | none =>
          simp only [bestEligible, hrest] at h
          cases he : eligible now j <;> simp [he] at h
          subst h
          rcases List.mem_cons.mp hk with hk | hk
          · subst hk; exact claimBefore_irrefl _
          · exact absurd hke (by simp [bestEligible_none hrest k hk])
      | some b0 =>
          simp only [bestEligible, hrest] at h
          cases hc : (eligible now j && claimBefore j b0) <;> simp [hc] at h
          · subst h
            rcases List.mem_cons.mp hk with hk | hk
            · subst hk
              simp [hke] at hc
              exact hc
            · exact ih hrest k hk hke
          · subst h
            rw [Bool.and_eq_true] at hc
            rcases List.mem_cons.mp hk with hk | hk
            · subst hk; exact claimBefore_irrefl _
            · by_contra hcon
              have hc2 : claimBefore k j = true := by
                cases hcb : claimBefore k j
                · exact absurd hcb hcon
                · rfl
              have hkb0 : claimBefore k b0 = true :=
                claimBefore_trans hc2 hc.2
              exact absurd hkb0 (by simp [ih hrest k hk hke])


theorem bestEligible_isSome {now : Nat} {q : List Job} {j : Job}
    (hj : j ∈ q) (he : eligible now j = true) :
    (bestEligible now q).isSome := by
  cases h : bestEligible now q with
  | none => exact absurd he (by simp [bestEligible_none h j hj])
  | some b => rfl

theorem claimJob_job_id (now : Nat) (j : Job) :
    (claimJob now j).job_id = j.job_id := rfl

theorem claimJob_stale_after (now : Nat) (j : Job) :
    (claimJob now j).stale_after = j.stale_after := rfl

theorem eligible_claimJob {now : Nat} {j : Job} (h : 0 < j.stale_after) :
    eligible now (claimJob now j) = false := by
  simp [eligible, claimJob]
  omega

theorem dequeue_some {now : Nat} {q : List Job} {b : Job}
    (hb : bestEligible now q = some b) :
    dequeue now q = (some (claimJob now b), applyClaim now b.job_id q) := by
  simp [dequeue, hb]

theorem dequeue_none {now : Nat} {q : List Job}
    (hb : bestEligible now q = none) :
    dequeue now q = (none, q) := by
  simp [dequeue, hb]

theorem applyClaim_map_job_id (now bid : Nat) (q : List Job) :
    (applyClaim now bid q).map Job.job_id = q.map Job.job_id := by
  induction q with
  | nil => rfl
  | cons j rest ih =>
      simp only [applyClaim, List.map_cons] at *
      rw [ih]
      by_cases h : j.job_id = bid <;> simp [h, claimJob]

theorem applyClaim_stale_pos {now bid : Nat} {q : List Job}
    (hp : ∀ j ∈ q, 0 < j.stale_after) :
    ∀ j ∈ applyClaim now bid q, 0 < j.stale_after := by
  intro j hj
  rcases List.mem_map.mp hj with ⟨k, hk, hfk⟩
  by_cases h : k.job_id = bid
  · rw [← hfk]; simp [h, claimJob_stale_after]; exact hp k hk
  · rw [← hfk]; simp [h]; exact hp k hk

/-- `idIneligible now q i` — no entry of the queue carrying `job_id = i` is
eligible for a claim at instant `now`. -/
def idIneligible (now : Nat) (q : List Job) (i : Nat) : Prop :=
  ∀ j ∈ q, j.job_id = i → eligible now j = false

theorem applyClaim_idIneligible {now bid : Nat} {q : List Job} {i : Nat}
    (hp : ∀ j ∈ q, 0 < j.stale_after)
    (h : idIneligible now q i) :
    idIneligible now (applyClaim now bid q) i := by
  intro j hj hid
  rcases List.mem_map.mp hj with ⟨k, hk, hfk⟩
  by_cases hkb : k.job_id = bid
  · rw [← hfk]; simp only [hkb, if_pos rfl]
    exact eligible_claimJob (hp k hk)
  · rw [← hfk] at hid ⊢
    simp only [hkb, if_neg hkb] at hid ⊢
    exact h k hk hid

theorem applyClaim_claimed_idIneligible {now bid : Nat} {q : List Job}
    (hp : ∀ j ∈ q, 0 < j.stale_after) :
    idIneligible now (applyClaim now bid q) bid := by
  intro j hj hid
  rcases List.mem_map.mp hj with ⟨k, hk, hfk⟩
  by_cases hkb : k.job_id = bid
  · rw [← hfk]; simp only [hkb, if_pos rfl]
    exact eligible_claimJob (hp k hk)
  · exfalso
    rw [← hfk] at hid
    simp only [hkb, if_neg hkb] at hid
    exact hkb hid

theorem bestEligible_not_idIneligible {now : Nat} {q : List Job} {b : Job}
    (hb : bestEligible now q = some b) {i : Nat}
    (h : idIneligible now q i) : b.job_id ≠ i := by
  intro hbi
  have := h b (bestEligible_mem hb) hbi
  rw [bestEligible_eligible hb] at this
  simp at this

theorem applyClaim_not_id (now bid : Nat) (q : List Job)
    (h : ∀ j ∈ q, j.job_id ≠ bid) : applyClaim now bid q = q := by
  induction q with
  | nil => rfl
  | cons j rest ih =>
      simp only [applyClaim, List.map_cons]
      rw [if_neg (h j (List.mem_cons_self j rest))]
      have := ih (fun k hk => h k (List.mem_cons_of_mem _ hk))
      simp only [applyClaim] at this
      rw [this]

theorem countP_eligible_applyClaim (now bid : Nat) {q : List Job}
    (hnd : (q.map Job.job_id).Nodup) :
    List.countP (fun j => eligible now j) q ≤
      List.countP (fun j => eligible now j) (applyClaim now bid q) + 1 := by
  induction q with
  | nil => simp [applyClaim]
  | cons j rest ih =>
      simp only [List.map_cons, List.nodup_cons] at hnd
      simp only [applyClaim, List.map_cons, List.countP_cons]
      by_cases hj : j.job_id = bid
      · have hrest : applyClaim now bid rest = rest := by
          apply applyClaim_not_id
          intro k hk hkbid
          exact hnd.1 (by rw [hj, ← hkbid]; exact List.mem_map_of_mem Job.job_id hk)
        simp only [applyClaim] at hrest
        rw [if_pos hj, hrest]
        split_ifs <;> omega
      · rw [if_neg hj]
        have := ih hnd.2
        simp only [applyClaim] at this
        split_ifs <;> omega

/-- Modelled from the spec: `N` concurrent `dequeue` calls against one queue;
the spec makes each selection-and-transition indivisible, so the concurrent
calls are modelled as `N` consecutive atomic `dequeue` steps at the same
instant. -/
def dequeueN (now : Nat) : Nat → List Job → List (Option Job) × List Job
  | 0, q => ([], q)
  | n + 1, q =>
      let step := dequeue now q
      let rest := dequeueN now n step.2
      (step.1 :: rest.1, rest.2)

theorem dequeueN_spec (now : Nat) :
    ∀ (N : Nat) (q : List Job),
      (q.map Job.job_id).Nodup →
      (∀ j ∈ q, 0 < j.stale_after) →
      N ≤ List.countP (fun j => eligible now j) q →
      ∃ js : List Job,
        (dequeueN now N q).1 = js.map some ∧
        js.length = N ∧
        (js.map Job.job_id).Nodup ∧
        (∀ i, idIneligible now q i → ∀ j ∈ js, j.job_id ≠ i) := by
  intro N
  induction N with
  | zero =>
      intro q _ _ _
      exact ⟨[], rfl, rfl, by simp, by simp⟩
  | succ n ih =>
      intro q hnd hp hcount
      have hpos : 0 < List.countP (fun j => eligible now j) q :=
        lt_of_lt_of_le (Nat.succ_pos n) hcount
      obtain ⟨j0, hj0, he0⟩ := List.countP_pos_iff.mp hpos
      have hsome := bestEligible_isSome hj0 he0
      obtain ⟨b, hb⟩ := Option.isSome_iff_exists.mp hsome
      have hdq := dequeue_some hb
      have hnd1 : ((applyClaim now b.job_id q).map Job.job_id).Nodup := by
        rw [applyClaim_map_job_id]; exact hnd
      have hp1 : ∀ j ∈ applyClaim now b.job_id q, 0 < j.stale_after :=
        applyClaim_stale_pos hp
      have hcount1 :
          n ≤ List.countP (fun j => eligible now j) (applyClaim now b.job_id q) := by
        have hle := countP_eligible_applyClaim now b.job_id hnd
        omega
      obtain ⟨js, hres, hlen, hndjs, hinv⟩ := ih (applyClaim now b.job_id q) hnd1 hp1 hcount1
      refine ⟨claimJob now b :: js, ?_, ?_, ?_, ?_⟩
      · simp [dequeueN, hdq, hres]
      · simp [hlen]
      · rw [List.map_cons, List.nodup_cons]
        constructor
        · rw [claimJob_job_id]
          intro hmem
          rcases List.mem_map.mp hmem with ⟨k, hk, hkid⟩
          exact hinv b.job_id (applyClaim_claimed_idIneligible hp) k hk hkid
        · exact hndjs
      · intro i hi j hj hji
        rcases List.mem_cons.mp hj with hj | hj
        · subst hj
          rw [claimJob_job_id] at hji
          exact bestEligible_not_idIneligible hb hi hji
        · exact hinv i (applyClaim_idIneligible hp hi) j hj hji

/-- Modelled from the spec: the expiry test of the visibility window — the
job is active and `dequeued_at + stale_after <= now`. -/
def expiredActive (now : Nat) (j : Job) : Bool :=
  j.status = JobStatus.active &&
    (match j.dequeued_at with
     | some d => decide (d + j.stale_after ≤ now)
     | none => false)

/-- Modelled from the spec: the missing `pgjq.ack` SQL function — transition
the identified job from active to completed and report success; report
`false` with no state change when the job is absent or not currently
active. -/
def ack (now : Nat) (q : List Job) (id : Nat) : Bool × List Job :=
  match q.find? (fun j => j.job_id == id) with
  | none => (false, q)
  | some j =>
      if j.status = JobStatus.active then
        (true,
         q.map (fun k =>
           if k.job_id = id then
             { k with status := JobStatus.completed, completed_at := some now }
           else k))
      else (false, q)

/-- Modelled from the spec: the missing `pgjq.nack` SQL function — transition
the identified job from active to failed, with the same not-found and
wrong-state semantics as `ack`. -/
def nack (now : Nat) (q : List Job) (id : Nat) : Bool × List Job :=
  match q.find? (fun j => j.job_id == id) with
  | none => (false, q)
  | some j =>
      if j.status = JobStatus.active then
        (true,
         q.map (fun k =>
           if k.job_id = id then
             { k with status := JobStatus.failed, failed_at := some now }
           else k))
      else (false, q)

/-- Modelled from the spec: the per-row reclamation of the missing
`pgjq.mark_stale_jobs` — an active job whose window has expired is returned
to pending (reclamation policy (a) of the spec), its `dequeued_at`
cleared. -/
def reclaimJob (now : Nat) (j : Job) : Job :=
  bif expiredActive now j then
    { j with status := JobStatus.pending, dequeued_at := none }
  else j

/-- Modelled from the spec: the missing `pgjq.mark_stale_jobs` SQL function —
the staleness sweep over one queue. -/
def mark_stale_jobs (now : Nat) (q : List Job) : List Job :=
  q.map (reclaimJob now)

theorem reclaimJob_job_id (now : Nat) (j : Job) :
    (reclaimJob now j).job_id = j.job_id := by
  simp only [reclaimJob]
  cases expiredActive now j <;> rfl

theorem reclaimJob_read_ct (now : Nat) (j : Job) :
    (reclaimJob now j).read_ct = j.read_ct := by
  simp only [reclaimJob]
  cases expiredActive now j <;> rfl

theorem claimBefore_reclaimJob (now : Nat) (a b : Job) :
    claimBefore (reclaimJob now a) (reclaimJob now b) = claimBefore a b := by
  simp only [reclaimJob]
  cases expiredActive now a <;> cases expiredActive now b <;> rfl

theorem eligible_reclaimJob (now : Nat) (j : Job) :
    eligible now (reclaimJob now j) = eligible now j := by
  simp only [reclaimJob]
  cases hx : expiredActive now j
  · rfl
  · simp only [cond_true]
    simp only [expiredActive, Bool.and_eq_true] at hx
    simp [eligible, hx.1]
    cases hd : j.dequeued_at with
    | none => rw [hd] at hx; simp at hx
    | some d =>
        rw [hd] at hx
        exact Or.inr (by simpa using hx.2)

/-- Sort keys accepted by `list_jobs` (client docstring: `job_id`, `read_ct`,
`enqueued_at`, `dequeued_at`, `status`, `priority`). -/
inductive SortBy where
  | job_id
  | read_ct
  | enqueued_at
  | dequeued_at
  | status
  | priority
deriving DecidableEq, Repr

/-- Sort direction accepted by `list_jobs` (`ASC` or `DESC`). -/
inductive SortDir where
  | asc
  | desc
deriving DecidableEq, Repr

/-- Position of a status in the `pgjq.job_status` enumeration, used when
sorting by status. -/
def statusRank : JobStatus → Nat
  | JobStatus.pending => 0
  | JobStatus.active => 1
  | JobStatus.completed => 2
  | JobStatus.failed => 3
  | JobStatus.cancelled => 4
  | JobStatus.stale => 5

/-- Ascending comparison on an optional timestamp; a missing value sorts
last, as a SQL NULL does in an ascending ORDER BY. -/
def optLe (a b : Option Nat) : Bool :=
  match a, b with
  | none, none => true
  | none, some _ => false
  | some _, none => true
  | some x, some y => x ≤ y

/-- Modelled from the spec: the ascending comparison of the missing
`pgjq.list_jobs` for each sort key. -/
def keyLe : SortBy → Job → Job → Bool
  | SortBy.job_id, a, b => a.job_id ≤ b.job_id
  | SortBy.read_ct, a, b => a.read_ct ≤ b.read_ct
  | SortBy.enqueued_at, a, b => a.enqueued_at ≤ b.enqueued_at
  | SortBy.dequeued_at, a, b => optLe a.dequeued_at b.dequeued_at
  | SortBy.status, a, b => statusRank a.status ≤ statusRank b.status
  | SortBy.priority, a, b => a.priority ≤ b.priority

/-- Comparison used by `list_jobs` for the requested key and direction. -/
def sortLe (sb : SortBy) (sd : SortDir) (a b : Job) : Bool :=
  match sd with
  | SortDir.asc => keyLe sb a b
  | SortDir.desc => keyLe sb b a

/-- Modelled from the spec: the status filter of the missing
`pgjq.list_jobs` — with no filter every job matches. -/
def matchesFilter (statuses : Option (List JobStatus)) (j : Job) : Bool :=
  match statuses with
  | none => true
  | some ss => ss.contains j.status

/-- Modelled from the spec: the missing `pgjq.list_jobs` SQL function —
filter by the optional status list, sort by the requested key and direction,
then paginate; a NULL page or per_page (as in the client total-count query)
returns the whole filtered set; `per_page` is capped at 1000. -/
def list_jobs (q : List Job) (page per_page : Option Nat)
    (sb : SortBy) (sd : SortDir) (statuses : Option (List JobStatus)) :
    List Job :=
  let filtered := q.filter (matchesFilter statuses)
  let sorted := filtered.mergeSort (sortLe sb sd)
  match page, per_page with
  | some p, some pp =>
      let cap := min pp 1000
      (sorted.drop ((p - 1) * cap)).take cap
  | _, _ => sorted

/-- The durable store backing all queues: an association of queue names to
their job lists, keyed uniquely by name. -/
abbrev Store : Type := List (String × List Job)

/-- Look up a queue by name (first match). -/
def storeGet (s : Store) (n : String) : Option (List Job) :=
  match s with
  | [] => none
  | p :: rest => if p.1 = n then some p.2 else storeGet rest n

/-- Replace the job list of the first queue entry named `n`. -/
def storeSet (s : Store) (n : String) (q : List Job) : Store :=
  match s with
  | [] => []
  | p :: rest => if p.1 = n then (p.1, q) :: rest else p :: storeSet rest n q

theorem storeSet_self {s : Store} {n : String} {q : List Job}
    (h : storeGet s n = some q) : storeSet s n q = s := by
  induction s with
  | nil => simp [storeGet] at h
  | cons p rest ih =>
      simp only [storeGet, storeSet] at *
      by_cases hp : p.1 = n
      · rw [if_pos hp] at h ⊢
        simp at h
        rw [← h]
      · rw [if_neg hp] at h ⊢
        rw [ih h]

theorem storeGet_storeSet_other {s : Store} {n m : String} {q : List Job}
    (h : m ≠ n) : storeGet (storeSet s n q) m = storeGet s m := by
  induction s with
  | nil => rfl
  | cons p rest ih =>
      simp only [storeSet, storeGet]
      by_cases hp : p.1 = n
      · rw [if_pos hp]
        simp only [storeGet]
        rw [if_neg (by rw [hp]; exact fun hnm => h hnm.symm), if_neg (by rw [hp]; exact fun hnm => h hnm.symm)]
      · rw [if_neg hp]
        simp only [storeGet]
        by_cases hm : p.1 = m
        · rw [if_pos hm, if_pos hm]
        · rw [if_neg hm, if_neg hm]
          exact ih

theorem storeGet_storeSet_same {s : Store} {n : String} {q q0 : List Job}
    (h : storeGet s n = some q0) : storeGet (storeSet s n q) n = some q := by
  induction s with
  | nil => simp [storeGet] at h
  | cons p rest ih =>
      simp only [storeGet, storeSet] at *
      by_cases hp : p.1 = n
      · rw [if_pos hp] at h
        rw [if_pos hp]
        simp only [storeGet]
        rw [if_pos hp]
      · rw [if_neg hp] at h
        rw [if_neg hp]
        simp only [storeGet]
        rw [if_neg hp]
        exact ih h

/-- Modelled from the spec: the missing `pgjq.delete_queue(queue_name,
job_id)` SQL function invoked by both clients' `delete_job` — remove the
identified job outright regardless of status and report whether it
existed. -/
def delete_job (s : Store) (n : String) (id : Nat) : Bool × Store :=
  match storeGet s n with
  | none => (false, s)
  | some q =>
      (q.any (fun j => j.job_id == id),
       storeSet s n (q.filter (fun j => ! (j.job_id == id))))

/-- Count of jobs of one status in a queue. -/
def statusCount (q : List Job) (s : JobStatus) : Nat :=
  q.countP (fun j => j.status = s)

/-- Modelled from the spec: the missing `pgjq.enqueue` SQL function — insert
a fresh pending job with a monotonically increasing `job_id` and return that
id; append-only, no effect on existing jobs. -/
def enqueue (now : Nat) (q : List Job) (payload : String)
    (headers : Option String) (stale_after : Nat) (priority : Int) :
    Nat × List Job :=
  let fresh := (q.map Job.job_id).foldr max 0 + 1
  (fresh,
   q ++ [{ job_id := fresh, read_ct := 0, enqueued_at := now,
           dequeued_at := none, staled_at := none, completed_at := none,
           cancelled_at := none, failed_at := none, job := payload,
           headers := headers, status := JobStatus.pending,
           stale_after := stale_after, priority := priority }])

/-- Modelled from the spec: the missing `pgjq.get_job` SQL function — fetch
one job by id. -/
def get_job (q : List Job) (id : Nat) : Option Job :=
  q.find? (fun j => j.job_id == id)

/-- Modelled from the spec: the missing `pgjq.purge_queue` SQL function —
remove every job and return the removed count. -/
def purge_queue (q : List Job) : Nat × List Job :=
  (q.length, [])

end pgjq

open pgjq

/-- Result row of the client's `list_jobs`, mirroring the Python
`JobListResult` dataclass. -/
structure JobListResult where
  total_count : Nat
  jobs : List Job
deriving DecidableEq, Repr

/-- Mirrors the Python `MetricsResult` dataclass. -/
structure MetricsResult where
  queue_name : String
  queue_length : Nat
  newest_job_age_sec : Nat
  oldest_job_age_sec : Nat
  total_jobs : Nat
  scrape_time : Nat
  queue_visible_length : Nat
  pending_count : Nat
  failed_count : Nat
  staled_count : Nat
  completed_count : Nat
  cancelled_count : Nat
  active_count : Nat
deriving DecidableEq, Repr

/-- Mirrors the Python `TotalMetricsResult` dataclass. -/
structure TotalMetricsResult where
  total_queues : Nat
  total_jobs : Nat
  pending_count : Nat
  failed_count : Nat
  staled_count : Nat
  completed_count : Nat
  cancelled_count : Nat
  active_count : Nat
deriving DecidableEq, Repr

/-- Mirrors the Python `JobChartRecord` dataclass. -/
structure JobChartRecord where
  timestamp : Nat
  pending_count : Nat
  active_count : Nat
  completed_count : Nat
  failed_count : Nat
  cancelled_count : Nat
  staled_count : Nat
deriving DecidableEq, Repr

/-- Modelled from the spec: the missing `pgjq.metrics` SQL function —
per-queue live counts computed from current store contents at call time. -/
def queueMetrics (now : Nat) (name : String) (q : List Job) : MetricsResult :=
  let pendingTimes := (q.filter (fun j => j.status = JobStatus.pending)).map Job.enqueued_at
  { queue_name := name
    queue_length := statusCount q JobStatus.pending
    newest_job_age_sec := now - (pendingTimes.foldr max 0)
    oldest_job_age_sec := now - (pendingTimes.foldr min now)
    total_jobs := q.length
    scrape_time := now
    queue_visible_length := q.countP (fun j => eligible now j)
    pending_count := statusCount q JobStatus.pending
    failed_count := statusCount q JobStatus.failed
    staled_count := statusCount q JobStatus.stale
    completed_count := statusCount q JobStatus.completed
    cancelled_count := statusCount q JobStatus.cancelled
    active_count := statusCount q JobStatus.active }

/-- Modelled from the spec: the missing `pgjq.metrics_total` SQL function —
aggregation across all queues. -/
def totalMetrics (s : Store) : TotalMetricsResult :=
  let all := s.flatMap Prod.snd
  { total_queues := s.length
    total_jobs := all.length
    pending_count := statusCount all JobStatus.pending
    failed_count := statusCount all JobStatus.failed
    staled_count := statusCount all JobStatus.stale
    completed_count := statusCount all JobStatus.completed
    cancelled_count := statusCount all JobStatus.cancelled
    active_count := statusCount all JobStatus.active }

/-- Modelled from the spec: the missing `pgjq.jobs_chart` SQL function — a
time-bucketed series of status-count snapshots; the stored snapshot history
is not reconstructible from a single store state, so the model returns the
one bucket observable at call time. -/
def jobsChart (now : Nat) (q : List Job) : List JobChartRecord :=
  [{ timestamp := now
     pending_count := statusCount q JobStatus.pending
     active_count := statusCount q JobStatus.active
     completed_count := statusCount q JobStatus.completed
     failed_count := statusCount q JobStatus.failed
     cancelled_count := statusCount q JobStatus.cancelled
     staled_count := statusCount q JobStatus.stale }]

/-- Errors surfaced by the client: the `RuntimeError("Not connected to
database")` raised by every method before touching the store, and the
engine-side error kinds of the spec. -/
inductive ClientError where
  | runtimeError (msg : String)
  | queueNotFound (name : String)
  | jobNotFound
deriving DecidableEq, Repr

/-- The `RuntimeError` every client method raises when `self._pool` is
unset. -/
def notConnected : ClientError :=
  ClientError.runtimeError "Not connected to database"

/-- State of a `PGJobQueue` client: whether `self._pool` is set, plus the
shared durable store it talks to. -/
structure PGJobQueueState where
  _pool : Bool
  store : Store
deriving DecidableEq

namespace PGJobQueue

/-- `PGJobQueue.__init__`: `self._pool = None`. -/
def init (s : Store) : PGJobQueueState :=
  { _pool := false, store := s }

/-- `PGJobQueue.connect`: initialize the connection pool. -/
def connect (st : PGJobQueueState) : PGJobQueueState :=
  { st with _pool := true }

/-- `PGJobQueue.close`: close the connection pool and clear `self._pool`. -/
def close (st : PGJobQueueState) : PGJobQueueState :=
  { st with _pool := false }

/-- `PGJobQueue.create_queue`, guard from the client source; queue body
modelled from the spec (existing queue left untouched, no-op variant of
§4.1). -/
def create_queue (st : PGJobQueueState) (queue_name : String) :
    PGJobQueueState × Except ClientError Unit :=
  if st._pool then
    match storeGet st.store queue_name with
    | some _ => (st, Except.ok ())
    | none => ({ st with store := st.store ++ [(queue_name, [])] }, Except.ok ())
  else (st, Except.error notConnected)

/-- `PGJobQueue.drop_queue`, guard from the client source; body modelled from
the spec (delete the queue and all its jobs, report whether it existed). -/
def drop_queue (st : PGJobQueueState) (queue_name : String) :
    PGJobQueueState × Except ClientError Bool :=
  if st._pool then
    ({ st with store := st.store.filter (fun p => ! (p.1 == queue_name)) },
     Except.ok (storeGet st.store queue_name).isSome)
  else (st, Except.error notConnected)

/-- `PGJobQueue.queue_exists`, guard from the client source; body modelled
from the spec (pure lookup). -/
def queue_exists (st : PGJobQueueState) (queue_name : String) :
    PGJobQueueState × Except ClientError Bool :=
  if st._pool then (st, Except.ok (storeGet st.store queue_name).isSome)
  else (st, Except.error notConnected)

/-- `PGJobQueue.purge_queue`, guard from the client source; body modelled
from the spec. -/
def purge_queue (st : PGJobQueueState) (queue_name : String) :
    PGJobQueueState × Except ClientError Nat :=
  if st._pool then
    match storeGet st.store queue_name with
    | none => (st, Except.error (ClientError.queueNotFound queue_name))
    | some q =>
        ({ st with store := storeSet st.store queue_name (pgjq.purge_queue q).2 },
         Except.ok (pgjq.purge_queue q).1)
  else (st, Except.error notConnected)

/-- `PGJobQueue.enqueue`, guard from the client source; body modelled from
the spec (§4.3). -/
def enqueue (st : PGJobQueueState) (now : Nat) (queue_name : String)
    (payload : String) (headers : Option String) (stale_after : Nat)
    (priority : Int) : PGJobQueueState × Except ClientError Nat :=
  if st._pool then
    match storeGet st.store queue_name with
    | none => (st, Except.error (ClientError.queueNotFound queue_name))
    | some q =>
        let r := pgjq.enqueue now q payload headers stale_after priority
        ({ st with store := storeSet st.store queue_name r.2 }, Except.ok r.1)
  else (st, Except.error notConnected)

/-- `PGJobQueue.dequeue`, guard from the client source; body modelled from
the spec (§4.2). -/
def dequeue (st : PGJobQueueState) (now : Nat) (queue_name : String) :
    PGJobQueueState × Except ClientError (Option Job) :=
  if st._pool then
    match storeGet st.store queue_name with
    | none => (st, Except.error (ClientError.queueNotFound queue_name))
    | some q =>
        let r := pgjq.dequeue now q
        ({ st with store := storeSet st.store queue_name r.2 }, Except.ok r.1)
  else (st, Except.error notConnected)

/-- `PGJobQueue.ack`, guard from the client source; body modelled from the
spec (§4.4). -/
def ack (st : PGJobQueueState) (now : Nat) (queue_name : String) (id : Nat) :
    PGJobQueueState × Except ClientError Bool :=
  if st._pool then
    match storeGet st.store queue_name with
    | none => (st, Except.error (ClientError.queueNotFound queue_name))
    | some q =>
        let r := pgjq.ack now q id
        ({ st with store := storeSet st.store queue_name r.2 }, Except.ok r.1)
  else (st, Except.error notConnected)

/-- `PGJobQueue.nack`, guard from the client source; body modelled from the
spec (§4.4). -/
def nack (st : PGJobQueueState) (now : Nat) (queue_name : String) (id : Nat) :
    PGJobQueueState × Except ClientError Bool :=
  if st._pool then
    match storeGet st.store queue_name with
    | none => (st, Except.error (ClientError.queueNotFound queue_name))
    | some q =>
        let r := pgjq.nack now q id
        ({ st with store := storeSet st.store queue_name r.2 }, Except.ok r.1)
  else (st, Except.error notConnected)

/-- `PGJobQueue.delete_job`, guard from the client source; body modelled from
the spec. -/
def delete_job (st : PGJobQueueState) (queue_name : String) (id : Nat) :
    PGJobQueueState × Except ClientError Bool :=
  if st._pool then
    let r := pgjq.delete_job st.store queue_name id
    ({ st with store := r.2 }, Except.ok r.1)
  else (st, Except.error notConnected)

/-- `PGJobQueue.list_jobs`, guard from the client source; it issues the
paginated query and then the same query with NULL page and per_page to count
all matching jobs (both modelled from the spec's `list_jobs`). -/
def list_jobs (st : PGJobQueueState) (queue_name : String)
    (page per_page : Nat) (sb : SortBy) (sd : SortDir)
    (statuses : Option (List JobStatus)) :
    PGJobQueueState × Except ClientError JobListResult :=
  if st._pool then
    match storeGet st.store queue_name with
    | none => (st, Except.error (ClientError.queueNotFound queue_name))
    | some q =>
        (st, Except.ok
          { jobs := pgjq.list_jobs q (some page) (some per_page) sb sd statuses,
            total_count := (pgjq.list_jobs q none none sb sd statuses).length })
  else (st, Except.error notConnected)

/-- `PGJobQueue.list_queues`, guard from the client source; body modelled
from the spec (names with job counts, ordered by name). -/
def list_queues (st : PGJobQueueState) :
    PGJobQueueState × Except ClientError (List (String × Nat)) :=
  if st._pool then
    (st, Except.ok ((st.store.map (fun p => (p.1, p.2.length))).mergeSort
      (fun a b => a.1 ≤ b.1)))
  else (st, Except.error notConnected)

/-- `PGJobQueue.get_metrics`, guard from the client source; body modelled
from the spec (§4.6). -/
def get_metrics (st : PGJobQueueState) (now : Nat) (queue_name : String) :
    PGJobQueueState × Except ClientError MetricsResult :=
  if st._pool then
    match storeGet st.store queue_name with
    | none => (st, Except.error (ClientError.queueNotFound queue_name))
    | some q => (st, Except.ok (queueMetrics now queue_name q))
  else (st, Except.error notConnected)

/-- `PGJobQueue.get_all_metrics`, guard from the client source; body modelled
from the spec (§4.6). -/
def get_all_metrics (st : PGJobQueueState) (now : Nat) :
    PGJobQueueState × Except ClientError (List MetricsResult) :=
  if st._pool then
    (st, Except.ok (st.store.map (fun p => queueMetrics now p.1 p.2)))
  else (st, Except.error notConnected)

/-- `PGJobQueue.get_total_metrics`, guard from the client source; body
modelled from the spec (§4.6). -/
def get_total_metrics (st : PGJobQueueState) :
    PGJobQueueState × Except ClientError TotalMetricsResult :=
  if st._pool then (st, Except.ok (totalMetrics st.store))
  else (st, Except.error notConnected)

/-- `PGJobQueue.get_jobs_chart`, guard from the client source; body modelled
from the spec (§4.6). -/
def get_jobs_chart (st : PGJobQueueState) (now : Nat) (queue_name : String) :
    PGJobQueueState × Except ClientError (List JobChartRecord) :=
  if st._pool then
    match storeGet st.store queue_name with
    | none => (st, Except.error (ClientError.queueNotFound queue_name))
    | some q => (st, Except.ok (jobsChart now q))
  else (st, Except.error notConnected)

/-- `PGJobQueue.mark_stale_jobs`, guard from the client source; body modelled
from the spec (§4.5). -/
def mark_stale_jobs (st : PGJobQueueState) (now : Nat) (queue_name : String) :
    PGJobQueueState × Except ClientError Unit :=
  if st._pool then
    match storeGet st.store queue_name with
    | none => (st, Except.error (ClientError.queueNotFound queue_name))
    | some q =>
        ({ st with store := storeSet st.store queue_name (pgjq.mark_stale_jobs now q) },
         Except.ok ())
  else (st, Except.error notConnected)

/-- `PGJobQueue.get_job`, guard from the client source; body modelled from
the spec (hard error when the job is absent). -/
def get_job (st : PGJobQueueState) (queue_name : String) (id : Nat) :
    PGJobQueueState × Except ClientError Job :=
  if st._pool then
    match storeGet st.store queue_name with
    | none => (st, Except.error (ClientError.queueNotFound queue_name))
    | some q =>
        match pgjq.get_job q id with
        | none => (st, Except.error ClientError.jobNotFound)
        | some j => (st, Except.ok j)
  else (st, Except.error notConnected)

end PGJobQueue

/-- A pending priority-0 job used in concrete checks. -/
def jobA : Job :=
  { job_id := 1, read_ct := 0, enqueued_at := 0, dequeued_at := none,
    staled_at := none, completed_at := none, cancelled_at := none,
    failed_at := none, job := "a", headers := none,
    status := JobStatus.pending, stale_after := 60, priority := 0 }

/-- A pending priority-5 job enqueued after `jobA`. -/
def jobB : Job :=
  { jobA with job_id := 2, enqueued_at := 1, job := "b", priority := 5 }

/-- An active job claimed once whose visibility window has expired by
instant 2. -/
def jobStale : Job :=
  { jobA with
    job_id := 1
    read_ct := 1
    dequeued_at := some 0
    status := JobStatus.active
    stale_after := 1
    job := "s" }

/-- A pending priority-5 job competing with `jobStale`. -/
def jobHigh : Job :=
  { jobA with job_id := 2, enqueued_at := 1, priority := 5, job := "h" }

/-- An active job within its visibility window. -/
def jobActive : Job :=
  { jobA with
    job_id := 3
    read_ct := 1
    dequeued_at := some 0
    status := JobStatus.active
    job := "w" }

/-- A completed (terminal) job. -/
def jobDone : Job :=
  { jobA with
    job_id := 4
    status := JobStatus.completed
    completed_at := some 1
    job := "d" }

/-- C1: with all visibility windows positive, N atomic dequeue steps at one
instant against a queue with at least N eligible jobs all succeed and return
pairwise distinct job_ids — no double delivery. -/
theorem dequeue_no_double_delivery (now N : Nat) (q : List Job)
    (hnd : (q.map Job.job_id).Nodup)
    (hpos : ∀ j ∈ q, 0 < j.stale_after)
    (hcount : N ≤ List.countP (fun j => eligible now j) q) :
    ∃ js : List Job,
      (dequeueN now N q).1 = js.map some ∧
      js.length = N ∧
      (js.map Job.job_id).Nodup := by
  obtain ⟨js, h1, h2, h3, _⟩ := dequeueN_spec now N q hnd hpos hcount
  exact ⟨js, h1, h2, h3⟩

/-- C1 witness: two concurrent dequeues against two eligible jobs return two
distinct job_ids. -/
theorem dequeue_no_double_delivery_witness :
    ∃ js : List Job,
      (dequeueN 10 2 [jobA, jobB]).1 = js.map some ∧
      js.length = 2 ∧
      (js.map Job.job_id).Nodup :=
  dequeue_no_double_delivery 10 2 [jobA, jobB] (by decide) (by decide) (by decide)

/-- C2: when some job is eligible, dequeue claims the eligible job that
precedes every other eligible job in the claim order (priority descending,
then enqueued_at ascending, then job_id ascending). -/
theorem dequeue_returns_claim_order_max (now : Nat) (q : List Job)
    (hex : ∃ j ∈ q, eligible now j = true) :
    ∃ b ∈ q, eligible now b = true ∧
      (dequeue now q).1 = some (claimJob now b) ∧
      ∀ k ∈ q, eligible now k = true → k.job_id ≠ b.job_id →
        claimBefore b k = true := by
  obtain ⟨j, hj, he⟩ := hex
  obtain ⟨b, hb⟩ := Option.isSome_iff_exists.mp (bestEligible_isSome hj he)
  refine ⟨b, bestEligible_mem hb, bestEligible_eligible hb, ?_, ?_⟩
  · rw [dequeue_some hb]
  · intro k hk hke hkid
    rcases claimBefore_total (fun h2 => hkid h2.symm) with h2 | h2
    · exact h2
    · exact absurd h2 (by simp [bestEligible_min hb k hk hke])

/-- C2 witness: of a priority-0 job enqueued first and a priority-5 job
enqueued second, dequeue claims the priority-5 job. -/
theorem dequeue_returns_claim_order_max_witness :
    ∃ b ∈ [jobA, jobB], eligible 10 b = true ∧
      (dequeue 10 [jobA, jobB]).1 = some (claimJob 10 b) ∧
      b.job_id = 2 := by
  obtain ⟨b, hb, he, hd, hmax⟩ :=
    dequeue_returns_claim_order_max 10 [jobA, jobB]
      ⟨jobA, by decide, by decide⟩
  refine ⟨b, hb, he, hd, ?_⟩
  by_contra hne
  have hj : claimBefore b jobB = true :=
    hmax jobB (by decide) (by decide) (fun h2 => hne h2.symm)
  rcases List.mem_cons.mp hb with h1 | h1
  · subst h1; revert hj; decide
  · have : b = jobB := by simpa using h1
    subst this; revert hj; decide

/-- C4: a successful dequeue returns the claimed job with status active,
dequeued_at set to the claim time, read_ct incremented, stale_after and all
identity fields unchanged, stores exactly that record, and leaves every
other job untouched. -/
theorem dequeue_success_frame (now : Nat) (q : List Job) (r : Job)
    (h : (dequeue now q).1 = some r) :
    ∃ b ∈ q, eligible now b = true ∧
      r = claimJob now b ∧
      r.status = JobStatus.active ∧
      r.dequeued_at = some now ∧
      r.read_ct = b.read_ct + 1 ∧
      r.stale_after = b.stale_after ∧
      r.job_id = b.job_id ∧
      r.job = b.job ∧
      r.headers = b.headers ∧
      r.priority = b.priority ∧
      r.enqueued_at = b.enqueued_at ∧
      (dequeue now q).2 = applyClaim now b.job_id q ∧
      r ∈ (dequeue now q).2 ∧
      ∀ k ∈ q, k.job_id ≠ b.job_id → k ∈ (dequeue now q).2 := by
  cases hb : bestEligible now q with
  | none => rw [dequeue_none hb] at h; simp at h
  | some b =>
      have hd := dequeue_some hb
      rw [hd] at h
      simp only [Option.some.injEq] at h
      subst h
      refine ⟨b, bestEligible_mem hb, bestEligible_eligible hb, rfl, rfl, rfl,
        rfl, rfl, rfl, rfl, rfl, rfl, rfl, ?_, ?_, ?_⟩
      · rw [hd]
      · rw [hd]
        exact List.mem_map.mpr ⟨b, bestEligible_mem hb, by simp⟩
      · intro k hk hkid
        rw [hd]
        exact List.mem_map.mpr ⟨k, hk, if_neg hkid⟩

/-- C4 witness: the concrete dequeue of the priority-5 job from a two-job
queue satisfies the frame conditions. -/
theorem dequeue_success_frame_witness :
    ∃ b ∈ [jobA, jobB], eligible 10 b = true ∧
      claimJob 10 jobB = claimJob 10 b ∧
      (claimJob 10 jobB).read_ct = b.read_ct + 1 ∧
      (claimJob 10 jobB).stale_after = b.stale_after := by
  obtain ⟨b, hb, he, hr, _, _, hct, hsa, _⟩ :=
    dequeue_success_frame 10 [jobA, jobB] (claimJob 10 jobB) (by decide)
  exact ⟨b, hb, he, hr, hct, hsa⟩

/-- C6: on a connected client, dequeue against a queue with no eligible job
returns an empty result and leaves the client state (and the store)
unchanged; the operation is a total function, so it cannot block or
raise. -/
theorem dequeue_empty_result (st : PGJobQueueState) (now : Nat)
    (name : String) (q : List Job)
    (hconn : st._pool = true)
    (hq : storeGet st.store name = some q)
    (hno : ∀ j ∈ q, eligible now j = false) :
    PGJobQueue.dequeue st now name = (st, Except.ok none) := by
  have hb : bestEligible now q = none := by
    cases h : bestEligible now q with
    | none => rfl
    | some b =>
        exact absurd (bestEligible_eligible h)
          (by simp [hno b (bestEligible_mem h)])
  obtain ⟨p, sStore⟩ := st
  simp only at hconn hq
  subst hconn
  simp [PGJobQueue.dequeue, hq, dequeue_none hb, storeSet_self hq]

/-- C6 witness: dequeue against a queue holding only a completed job returns
an empty result with the state unchanged. -/
theorem dequeue_empty_result_witness :
    PGJobQueue.dequeue ⟨true, [("q", [jobDone])]⟩ 10 "q" =
      (⟨true, [("q", [jobDone])]⟩, Except.ok none) :=
  dequeue_empty_result ⟨true, [("q", [jobDone])]⟩ 10 "q" [jobDone]
    rfl (by decide) (by decide)

/-- C3 (amended): a dequeued, unacknowledged job whose window has expired is
redelivered with `read_ct = 2` by the dequeue following the staleness sweep,
provided it precedes every other eligible job of its queue in the claim
order. -/
theorem stale_sweep_redelivery (now2 d : Nat) (q : List Job) (j : Job)
    (hnd : (q.map Job.job_id).Nodup)
    (hj : j ∈ q)
    (hread : j.read_ct = 1)
    (hact : j.status = JobStatus.active)
    (hdq : j.dequeued_at = some d)
    (hexp : d + j.stale_after ≤ now2)
    (hbest : ∀ k ∈ q, eligible now2 k = true → k.job_id ≠ j.job_id →
      claimBefore j k = true) :
    ∃ r, (dequeue now2 (mark_stale_jobs now2 q)).1 = some r ∧
      r.job_id = j.job_id ∧ r.read_ct = 2 := by
  have hel : eligible now2 j = true := by
    simp [eligible, hact, hdq]
    exact hexp
  have hj2 : reclaimJob now2 j ∈ mark_stale_jobs now2 q :=
    List.mem_map_of_mem _ hj
  have hel2 : eligible now2 (reclaimJob now2 j) = true := by
    rw [eligible_reclaimJob]; exact hel
  obtain ⟨b, hb⟩ := Option.isSome_iff_exists.mp (bestEligible_isSome hj2 hel2)
  obtain ⟨k0, hk0, hbk0⟩ := List.mem_map.mp (bestEligible_mem hb)
  have hk0el : eligible now2 k0 = true := by
    have h2 := bestEligible_eligible hb
    rw [← hbk0, eligible_reclaimJob] at h2
    exact h2
  have hid : k0.job_id = j.job_id := by
    by_contra hne
    have h1 : claimBefore j k0 = true := hbest k0 hk0 hk0el hne
    have h2 : claimBefore (reclaimJob now2 j) b = false :=
      bestEligible_min hb _ hj2 hel2
    rw [← hbk0, claimBefore_reclaimJob, h1] at h2
    simp at h2
  have hk0j : k0 = j := List.inj_on_of_nodup_map hnd hk0 hj hid
  subst hk0j
  refine ⟨claimJob now2 b, ?_, ?_, ?_⟩
  · rw [dequeue_some hb]
  · rw [claimJob_job_id, ← hbk0, reclaimJob_job_id]
  · rw [show (claimJob now2 b).read_ct = b.read_ct + 1 from rfl,
        ← hbk0, reclaimJob_read_ct, hread]

/-- C3 counterexample: `jobStale` satisfies every premise of the claim
(read_ct 1, active, window expired at instant 2), yet after the sweep the
next dequeue returns the higher-priority `jobHigh`, not the same job_id. -/
theorem stale_sweep_redelivery_counterexample :
    jobStale.read_ct = 1 ∧
    jobStale.status = JobStatus.active ∧
    jobStale.dequeued_at = some 0 ∧
    0 + jobStale.stale_after ≤ 2 ∧
    (dequeue 2 (mark_stale_jobs 2 [jobStale, jobHigh])).1.map Job.job_id =
      some jobHigh.job_id ∧
    jobHigh.job_id ≠ jobStale.job_id := by decide

/-- C3 witness: with the stale job alone in its queue, the post-sweep dequeue
redelivers it with `read_ct = 2`. -/
theorem stale_sweep_redelivery_witness :
    ∃ r, (dequeue 2 (mark_stale_jobs 2 [jobStale])).1 = some r ∧
      r.job_id = jobStale.job_id ∧ r.read_ct = 2 :=
  stale_sweep_redelivery 2 0 [jobStale] jobStale (by decide) (by decide)
    (by decide) rfl rfl (by decide) (by decide)

/-- C5: ack (and nack) on an absent or non-active job returns false with the
queue unchanged; on an active job each returns true and transitions it to
completed (resp. failed), leaving every other job untouched. -/
theorem ack_nack_spec (now : Nat) (q : List Job) (id : Nat)
    (hnd : (q.map Job.job_id).Nodup) :
    ((∀ j ∈ q, j.job_id = id → j.status ≠ JobStatus.active) →
        pgjq.ack now q id = (false, q) ∧ pgjq.nack now q id = (false, q)) ∧
    (∀ j ∈ q, j.job_id = id → j.status = JobStatus.active →
        (pgjq.ack now q id).1 = true ∧
        (pgjq.nack now q id).1 = true ∧
        { j with status := JobStatus.completed, completed_at := some now } ∈
          (pgjq.ack now q id).2 ∧
        { j with status := JobStatus.failed, failed_at := some now } ∈
          (pgjq.nack now q id).2 ∧
        (∀ k ∈ q, k.job_id ≠ id →
          k ∈ (pgjq.ack now q id).2 ∧ k ∈ (pgjq.nack now q id).2)) := by
  constructor
  · intro hno
    cases hf : q.find? (fun j => j.job_id == id) with
    | none => constructor <;> simp [pgjq.ack, pgjq.nack, hf]
    | some j0 =>
        have hpj := List.find?_some hf
        have hmem : j0 ∈ q := List.mem_of_find?_eq_some hf
        have hne : j0.status ≠ JobStatus.active :=
          hno j0 hmem (by simpa using hpj)
        constructor <;> simp [pgjq.ack, pgjq.nack, hf, hne]
  · intro j hj hid hact
    have hsome : (q.find? (fun j => j.job_id == id)).isSome :=
      List.find?_isSome.mpr ⟨j, hj, by simp [hid]⟩
    obtain ⟨j0, hf⟩ := Option.isSome_iff_exists.mp hsome
    have hpj : j0.job_id = id := by simpa using List.find?_some hf
    have hmem : j0 ∈ q := List.mem_of_find?_eq_some hf
    have hj0 : j0 = j :=
      List.inj_on_of_nodup_map hnd hmem hj (hpj.trans hid.symm)
    subst hj0
    have hack : pgjq.ack now q id =
        (true, q.map (fun k => if k.job_id = id then
          { k with status := JobStatus.completed, completed_at := some now }
        else k)) := by
      simp only [pgjq.ack, hf]
      rw [if_pos hact]
    have hnack : pgjq.nack now q id =
        (true, q.map (fun k => if k.job_id = id then
          { k with status := JobStatus.failed, failed_at := some now }
        else k)) := by
      simp only [pgjq.nack, hf]
      rw [if_pos hact]
    refine ⟨by rw [hack], by rw [hnack], ?_, ?_, ?_⟩
    · rw [hack]
      exact List.mem_map.mpr ⟨j0, hmem, by simp [hpj]⟩
    · rw [hnack]
      exact List.mem_map.mpr ⟨j0, hmem, by simp [hpj]⟩
    · intro k hk hkid
      constructor
      · rw [hack]
        exact List.mem_map.mpr ⟨k, hk, by simp [hkid]⟩
      · rw [hnack]
        exact List.mem_map.mpr ⟨k, hk, by simp [hkid]⟩

/-- C5 witness: ack succeeds on an active job, and ack on a never-dequeued
pending job returns false without side effects. -/
theorem ack_nack_spec_witness :
    (pgjq.ack 5 [jobActive] 3).1 = true ∧
    pgjq.ack 5 [jobA] 1 = (false, [jobA]) := by
  constructor
  · exact ((ack_nack_spec 5 [jobActive] 3 (by decide)).2 jobActive
      (by decide) rfl rfl).1
  · exact ((ack_nack_spec 5 [jobA] 1 (by decide)).1 (by decide)).1

/-- C7: for every page and per_page (within the 1000 cap), `list_jobs`
returns the page slice of the sorted, status-filtered jobs, and a
`total_count` equal to the number of all jobs matching the same filter,
independent of the pagination arguments. -/
theorem list_jobs_pagination (st : PGJobQueueState) (name : String)
    (q : List Job) (page per_page : Nat) (sb : SortBy) (sd : SortDir)
    (statuses : Option (List JobStatus))
    (hconn : st._pool = true)
    (hq : storeGet st.store name = some q)
    (hpp : per_page ≤ 1000) :
    ∃ res : JobListResult,
      PGJobQueue.list_jobs st name page per_page sb sd statuses =
        (st, Except.ok res) ∧
      res.total_count = (q.filter (matchesFilter statuses)).length ∧
      res.jobs =
        (((q.filter (matchesFilter statuses)).mergeSort (sortLe sb sd)).drop
          ((page - 1) * per_page)).take per_page := by
  refine ⟨{ jobs := pgjq.list_jobs q (some page) (some per_page) sb sd statuses,
            total_count :=
              (pgjq.list_jobs q none none sb sd statuses).length }, ?_, ?_, ?_⟩
  · simp [PGJobQueue.list_jobs, hconn, hq]
  · simp [pgjq.list_jobs, List.length_mergeSort]
  · simp only [pgjq.list_jobs]
    rw [Nat.min_eq_left hpp]

/-- C7 witness: the first one-job page of a two-job queue, with the total
count still 2. -/
theorem list_jobs_pagination_witness :
    ∃ res : JobListResult,
      PGJobQueue.list_jobs ⟨true, [("q", [jobA, jobB])]⟩ "q" 1 1
        SortBy.job_id SortDir.asc none =
        (⟨true, [("q", [jobA, jobB])]⟩, Except.ok res) ∧
      res.total_count = ([jobA, jobB].filter (matchesFilter none)).length ∧
      res.jobs =
        ((([jobA, jobB].filter (matchesFilter none)).mergeSort
          (sortLe SortBy.job_id SortDir.asc)).drop ((1 - 1) * 1)).take 1 :=
  list_jobs_pagination ⟨true, [("q", [jobA, jobB])]⟩ "q" [jobA, jobB] 1 1
    SortBy.job_id SortDir.asc none rfl (by decide) (by decide)

/-- C8: `delete_job` reports whether a job with the given id existed, removes
every trace of exactly that job from the named queue regardless of its
status, keeps all other jobs of that queue, and leaves every other queue
untouched. -/
theorem delete_job_spec (s : Store) (name : String) (id : Nat)
    (q : List Job) (hq : storeGet s name = some q) :
    ((pgjq.delete_job s name id).1 = true ↔ ∃ j ∈ q, j.job_id = id) ∧
    storeGet (pgjq.delete_job s name id).2 name =
      some (q.filter (fun j => ! (j.job_id == id))) ∧
    (∀ j ∈ q, j.job_id ≠ id → j ∈ q.filter (fun j => ! (j.job_id == id))) ∧
    (∀ j ∈ q.filter (fun j => ! (j.job_id == id)), j.job_id ≠ id) ∧
    (∀ m, m ≠ name →
      storeGet (pgjq.delete_job s name id).2 m = storeGet s m) := by
  simp only [pgjq.delete_job, hq]
  refine ⟨?_, ?_, ?_, ?_, ?_⟩
  · simp
  · exact storeGet_storeSet_same hq
  · intro j hj hjid
    exact List.mem_filter.mpr ⟨hj, by simp [hjid]⟩
  · intro j hj
    have h2 := (List.mem_filter.mp hj).2
    simpa using h2
  · intro m hm
    exact storeGet_storeSet_other hm

/-- C8 witness: deleting job 1 from a two-job queue reports it existed and
leaves the sibling queue unchanged. -/
theorem delete_job_spec_witness :
    ((pgjq.delete_job [("q", [jobA, jobB]), ("p", [jobDone])] "q" 1).1 = true ↔
      ∃ j ∈ [jobA, jobB], j.job_id = 1) ∧
    storeGet (pgjq.delete_job [("q", [jobA, jobB]), ("p", [jobDone])] "q" 1).2
        "q" = some ([jobA, jobB].filter (fun j => ! (j.job_id == 1))) := by
  have h := delete_job_spec [("q", [jobA, jobB]), ("p", [jobDone])] "q" 1
    [jobA, jobB] rfl
  exact ⟨h.1, h.2.1⟩

/-- The shape of the enqueue call a client issues to the store: the SQL text
and its four bound arguments. -/
structure EnqueueCall where
  query : String
  queue_name : String
  payload : String
  stale_after_seconds : Nat
  priority : Int
deriving DecidableEq, Repr

/-- Enqueue call built by `PGJobQueue.enqueue` in
`src/python-client/src/pgjq_client/client.py` (the packaged client): the
payload is passed through `json.dumps` and bound with the queue name, the
`stale_after` interval and the priority. -/
def pgjq_client_enqueue (queue_name payload : String) (stale_after : Nat)
    (priority : Int) : EnqueueCall :=
  { query := "SELECT * FROM pgjq.enqueue($1::text, $2::jsonb, $3::interval, $4::integer)"
    queue_name := queue_name
    payload := payload
    stale_after_seconds := stale_after
    priority := priority }

/-- Default `stale_after` of the packaged client's `enqueue`:
`timedelta(minutes=10)`. -/
def pgjq_client_enqueue_default_stale_after : Nat := 10 * 60

/-- Enqueue call built by `PGJobQueue.enqueue` in
`src/python-client/client.py` (the top-level client version). -/
def legacy_client_enqueue (queue_name payload : String) (stale_after : Nat)
    (priority : Int) : EnqueueCall :=
  { query := "SELECT * FROM pgjq.enqueue($1::text, $2::jsonb, $3::interval, $4::integer)"
    queue_name := queue_name
    payload := payload
    stale_after_seconds := stale_after
    priority := priority }

/-- Default `stale_after` of the top-level client's `enqueue`:
`timedelta(minutes=1)`. -/
def legacy_client_enqueue_default_stale_after : Nat := 1 * 60

/-- C9: with an explicit `stale_after`, the two client versions issue
identical enqueue calls for all arguments; their defaults differ — one
minute against ten minutes. -/
theorem enqueue_versions_agree :
    (∀ (n p : String) (s : Nat) (pr : Int),
        pgjq_client_enqueue n p s pr = legacy_client_enqueue n p s pr) ∧
    legacy_client_enqueue_default_stale_after = 60 ∧
    pgjq_client_enqueue_default_stale_after = 600 ∧
    legacy_client_enqueue_default_stale_after ≠
      pgjq_client_enqueue_default_stale_after := by
  refine ⟨fun n p s pr => rfl, rfl, rfl, by decide⟩

/-- C10: every public client operation called while `self._pool` is unset
raises `RuntimeError("Not connected to database")` and leaves the client
state — hence the store — unchanged; a fresh client starts unconnected and
`close` returns it to that state. -/
theorem not_connected_raises (st : PGJobQueueState) (now : Nat)
    (name : String) (id : Nat) (payload : String) (headers : Option String)
    (stale_after : Nat) (priority : Int) (page per_page : Nat)
    (sb : SortBy) (sd : SortDir) (statuses : Option (List JobStatus))
    (h : st._pool = false) :
    PGJobQueue.create_queue st name = (st, Except.error notConnected) ∧
    PGJobQueue.drop_queue st name = (st, Except.error notConnected) ∧
    PGJobQueue.queue_exists st name = (st, Except.error notConnected) ∧
    PGJobQueue.purge_queue st name = (st, Except.error notConnected) ∧
    PGJobQueue.enqueue st now name payload headers stale_after priority =
      (st, Except.error notConnected) ∧
    PGJobQueue.dequeue st now name = (st, Except.error notConnected) ∧
    PGJobQueue.ack st now name id = (st, Except.error notConnected) ∧
    PGJobQueue.nack st now name id = (st, Except.error notConnected) ∧
    PGJobQueue.delete_job st name id = (st, Except.error notConnected) ∧
    PGJobQueue.list_jobs st name page per_page sb sd statuses =
      (st, Except.error notConnected) ∧
    PGJobQueue.list_queues st = (st, Except.error notConnected) ∧
    PGJobQueue.get_metrics st now name = (st, Except.error notConnected) ∧
    PGJobQueue.get_all_metrics st now = (st, Except.error notConnected) ∧
    PGJobQueue.get_total_metrics st = (st, Except.error notConnected) ∧
    PGJobQueue.get_jobs_chart st now name = (st, Except.error notConnected) ∧
    PGJobQueue.mark_stale_jobs st now name = (st, Except.error notConnected) ∧
    PGJobQueue.get_job st name id = (st, Except.error notConnected) ∧
    (PGJobQueue.init st.store)._pool = false ∧
    (PGJobQueue.close (PGJobQueue.connect st))._pool = false := by
  simp [PGJobQueue.create_queue, PGJobQueue.drop_queue,
    PGJobQueue.queue_exists, PGJobQueue.purge_queue, PGJobQueue.enqueue,
    PGJobQueue.dequeue, PGJobQueue.ack, PGJobQueue.nack,
    PGJobQueue.delete_job, PGJobQueue.list_jobs, PGJobQueue.list_queues,
    PGJobQueue.get_metrics, PGJobQueue.get_all_metrics,
    PGJobQueue.get_total_metrics, PGJobQueue.get_jobs_chart,
    PGJobQueue.mark_stale_jobs, PGJobQueue.get_job, PGJobQueue.init,
    PGJobQueue.close, PGJobQueue.connect, h]

/-- C10 witness: `create_queue` on a freshly initialised (never connected)
client raises the runtime error and keeps the state. -/
theorem not_connected_raises_witness :
    PGJobQueue.create_queue (PGJobQueue.init [("q", [jobA])]) "q" =
      (PGJobQueue.init [("q", [jobA])], Except.error notConnected) :=
  (not_connected_raises (PGJobQueue.init [("q", [jobA])]) 0 "q" 1 "p" none
    60 0 1 50 SortBy.job_id SortDir.asc none rfl).1
